import Mathlib

/-!
Verification development for the "impostor-game" realtime game engine.

The definitions below are a shallow embedding of the Python sources:

* `impostor/infrastructure/redis_room_store.py` (`RedisRoomStore`) — the
  per-room persistent state and its primitive operations.  The store keeps a
  process-local cache for turn state, so `set_turn_state`/`get_turn_state`
  behave as whole-value replacement and lookup; redis hashes holding string
  values are modelled with `Option` fields (`none` = field absent), redis
  sets as duplicate-free lists, redis hashes used as dictionaries as
  association lists in insertion order (redis `hset` updates a field in
  place or appends a fresh one).
* `impostor/application/room_service.py` (`RoomService`) and
  `impostor/application/game_service.py` (`GameService`) — the lobby and
  game state machines.  Python exceptions (`RoomNotFoundError`,
  `PermissionError`, `RuntimeError`, `KeyError`) become an explicit
  `GameError`; the HTTP layer maps them to 404/403/409/404 respectively.
* Wall-clock time (`time.time()`) is modelled by an integer parameter
  `now`; all stored timestamps are integers, so Python's `int(x - y)`
  truncation is the identity.
* `Notifier` broadcasts are modelled by an `Event` trace returned next to
  the new state; payload fields that the properties below talk about are
  carried in the trace.
-/

namespace ImpostorGame

/-- Reasons a turn can end, from `impostor/domain/turn.py` (`TurnEndReason`). -/
inductive TurnEndReason where
  | spoken
  | timeout
  | skipped
  deriving Repr, DecidableEq

/-- Exceptions raised by the services: `RoomNotFoundError` and `KeyError`
(token lookup) map to HTTP 404, `PermissionError` to 403 (Forbidden) and
`RuntimeError` to 409 (Conflict) in the API routes. -/
inductive GameError where
  | roomNotFound
  | tokenNotFound
  | forbidden (msg : String)
  | conflict (msg : String)
  deriving Repr, DecidableEq

/-- A game result dictionary as built by `GameService` (`guess_word`,
`_finalize_voting_locked`) or defaulted by `RedisRoomStore.end_game`.
Fields that a particular result dictionary does not carry stay at their
defaults. -/
structure GameResult where
  winner : Option String := none
  reason : String
  votedOut : Option String := none
  impostorId : Option String := none
  word : Option String := none
  guess : Option String := none
  tally : List (String × Nat) := []
  votes : List (String × String) := []
  deriving Repr, DecidableEq

/-- The per-connection redis hash `conn:{conn_id}`.  All values are stored
as strings; `ready` is the string `"1"` or `"0"`.  A field is `none` when
absent from the hash. -/
structure ConnAttrs where
  roomId : Option String := none
  nickname : Option String := none
  ready : Option String := none
  role : Option String := none
  deriving Repr, DecidableEq

/-- The resume-token hash written by `RedisRoomStore.issue_resume_token`:
`room_id` and `conn_id` always, plus `nickname`, `ready`, `role` when the
connection hash had them. -/
structure ResumeSnapshot where
  roomId : String
  connId : String
  nickname : Option String := none
  ready : Option String := none
  role : Option String := none
  deriving Repr, DecidableEq

/-- The dictionary returned by `consume_resume_token` /
`peek_resume_token`: the stored snapshot with `ready` coerced to a boolean
(`data["ready"] == "1"`). -/
structure ResumeData where
  roomId : String
  connId : String
  nickname : Option String := none
  ready : Option Bool := none
  role : Option String := none
  deriving Repr, DecidableEq

/-- The turn-state hash `room:{room_id}:turn_state` as parsed by
`RedisRoomStore.get_turn_state`.  `phase`, `round`, `turn_index` and
`current_conn_id` are written by every `set_turn_state` call in
`GameService`; the remaining fields come and go with the phase and are
`none` when absent.  The `voters` field holds the JSON-encoded sorted
voter list; it is modelled in parsed form. -/
structure TurnState where
  phase : String
  round : Int
  turnIndex : Nat
  currentConnId : String
  deadlineTs : Option Int := none
  turnDuration : Option Int := none
  turnGrace : Option Int := none
  voteDuration : Option Int := none
  turnRemaining : Option Int := none
  graceDeadlineTs : Option Int := none
  voteDeadlineTs : Option Int := none
  voters : Option (List String) := none
  deriving Repr, DecidableEq

/-- Outbound notifier payloads emitted by the modelled `GameService`
operations, restricted to the fields of interest. -/
inductive Event where
  | gameEnded (result : GameResult)
  | lobbyState
  | roundStarted (round : Int) (order : List String) (turnDuration : Int)
  | turnStarted (round : Int) (turnIndex : Nat) (connId : String) (turnDuration : Int)
  | turnEnded (round : Int) (turnIndex : Nat) (connId : String) (reason : TurnEndReason)
  | roundEnded (round : Int)
  | votingStarted (round : Int) (voters : List String) (voteDuration : Int)
  | turnPaused (round : Int) (turnIndex : Nat) (connId : String) (remaining : Int)
  | turnResumed (round : Int) (turnIndex : Nat) (connId : String) (remaining : Int)
  | voteCast (round : Int) (voter target : String)
      (votes : List (String × String)) (tally : List (String × Nat))
  | votingResult (round : Int) (result : GameResult)
  deriving Repr, DecidableEq

/-- The full persistent state of one room in the `RedisRoomStore`,
together with the resume-token table (tokens are global keys but each one
references a single room). -/
structure RoomState where
  name : Option String := none
  conns : List String := []
  attrs : String → Option ConnAttrs := fun _ => none
  host : Option String := none
  settings : List (String × String) := []
  gameState : Option String := none
  gameResult : Option GameResult := none
  secretWord : Option String := none
  impostorId : Option String := none
  turnOrder : List String := []
  turnState : Option TurnState := none
  votes : List (String × String) := []
  turnWords : List (String × String × Int × Nat) := []
  wordHistory : List (String × String × Int × Nat) := []
  tokens : String → Option ResumeSnapshot := fun _ => none

/-! ### Store primitives (`redis_room_store.py`) -/

/-- Insert into a redis set: no effect when already present. -/
def insertConn (conns : List String) (connId : String) : List String :=
  if connId ∈ conns then conns else conns ++ [connId]

/-- Insertion into a sorted list of strings (ascending). -/
def insertSorted (x : String) : List String → List String
  | [] => [x]
  | y :: ys => if x ≤ y then x :: y :: ys else y :: insertSorted x ys

/-- Python's `sorted` on a set of strings: the members in ascending
lexicographic order. -/
def sortStrings (l : List String) : List String :=
  l.foldr insertSorted []

/-- RedisRoomStore.add_conn: add the conn to the room set, merge
`{room_id, ready}` (plus `nickname` when truthy) into the conn hash, and
set the room host to this conn when no host exists (`setnx`). -/
def addConn (r : RoomState) (roomId connId : String)
    (nickname : Option String) (ready : Bool) : RoomState :=
  let base := (r.attrs connId).getD {}
  let base := { base with
    roomId := some roomId,
    ready := some (if ready then "1" else "0") }
  let base := match nickname with
    | some n => if n ≠ "" then { base with nickname := some n } else base
    | none => base
  { r with
    conns := insertConn r.conns connId,
    attrs := fun c => if c = connId then some base else r.attrs c,
    host := match r.host with
      | some h => some h
      | none => some connId }

/-- RedisRoomStore.remove_conn: drop the conn from the set, delete its
hash, and when it was the host, reassign the host to
`sorted(remaining)[0]` (the least remaining conn id) or clear it when no
conns remain. -/
def removeConn (r : RoomState) (connId : String) : RoomState :=
  let conns := r.conns.erase connId
  { r with
    conns := conns,
    attrs := fun c => if c = connId then none else r.attrs c,
    host :=
      if r.host = some connId then
        match sortStrings conns with
        | [] => none
        | m :: _ => some m
      else r.host }

/-- RedisRoomStore.set_ready: write `ready` as `"1"`/`"0"` into the conn
hash (creating the hash when absent, as redis `hset` does). -/
def setReady (r : RoomState) (connId : String) (ready : Bool) : RoomState :=
  { r with attrs := fun c =>
      if c = connId then
        some { (r.attrs c).getD {} with ready := some (if ready then "1" else "0") }
      else r.attrs c }

/-- RedisRoomStore.end_game: default the result to
`{reason: "win_condition"}`, set the game state to `"ended"` and persist
the result. -/
def storeEndGame (r : RoomState) (result : Option GameResult) :
    RoomState × GameResult :=
  let res := result.getD { reason := "win_condition" }
  ({ r with gameState := some "ended", gameResult := some res }, res)

/-- RedisRoomStore.clear_roles: remove `role` from every member's conn
hash, then delete the secret word and the impostor keys. -/
def clearRoles (r : RoomState) : RoomState :=
  { r with
    attrs := fun c =>
      if c ∈ r.conns then (r.attrs c).map (fun a => { a with role := none })
      else r.attrs c,
    secretWord := none,
    impostorId := none }

/-- RedisRoomStore.clear_turn_state: delete the turn state, the turn order
and the votes. -/
def clearTurnState (r : RoomState) : RoomState :=
  { r with turnState := none, turnOrder := [], votes := [] }

/-- Redis `hset` on the votes hash: update the voter's field in place or
append a fresh one. -/
def setVote (votes : List (String × String)) (voter target : String) :
    List (String × String) :=
  if votes.any (fun p => p.1 = voter) then
    votes.map (fun p => if p.1 = voter then (voter, target) else p)
  else votes ++ [(voter, target)]

/-- RedisRoomStore.issue_resume_token: snapshot the conn hash (absent hash
reads as the empty dictionary) into a fresh token entry. -/
def issueResumeToken (r : RoomState) (roomId connId token : String) : RoomState :=
  let data := r.attrs connId
  let snap : ResumeSnapshot := {
    roomId := roomId,
    connId := connId,
    nickname := data.bind (fun a => a.nickname),
    ready := data.bind (fun a => a.ready),
    role := data.bind (fun a => a.role) }
  { r with tokens := fun t => if t = token then some snap else r.tokens t }

/-- RedisRoomStore.consume_resume_token: return the snapshot (with `ready`
coerced to a boolean) and delete the token; unknown tokens raise
`KeyError`. -/
def consumeResumeToken (r : RoomState) (token : String) :
    Except GameError (RoomState × ResumeData) :=
  match r.tokens token with
  | none => .error .tokenNotFound
  | some snap =>
      .ok ({ r with tokens := fun t => if t = token then none else r.tokens t },
        { roomId := snap.roomId, connId := snap.connId,
          nickname := snap.nickname,
          ready := snap.ready.map (fun v => v = "1"),
          role := snap.role })

/-! ### GameService helpers (`game_service.py`) -/

/-- GameService._get_turn_state_for_phase: the stored turn state when it
exists and its phase matches, otherwise nothing. -/
def getTurnStateForPhase (r : RoomState) (phase : String) : Option TurnState :=
  match r.turnState with
  | none => none
  | some st => if st.phase = phase then some st else none

/-- GameService._parse_voters: the voters snapshot carried by the turn
state, empty when absent. -/
def parseVoters (st : TurnState) : List String :=
  st.voters.getD []

/-- One step of the tally dictionary update: bump the target's count,
appending a fresh entry (at the end, as Python dict insertion does) when
the target is new. -/
def tallyInsert (tally : List (String × Nat)) (target : String) :
    List (String × Nat) :=
  match tally with
  | [] => [(target, 1)]
  | (t, c) :: rest =>
      if t = target then (t, c + 1) :: rest
      else (t, c) :: tallyInsert rest target

/-- GameService._tally_votes: count votes whose voter is in the snapshot
and whose target is in the snapshot or `"skip"`; the resulting association
list is keyed in first-occurrence order. -/
def tallyVotes (votes : List (String × String)) (voters : List String) :
    List (String × Nat) :=
  votes.foldl
    (fun tally p =>
      if p.1 ∈ voters ∧ (p.2 ∈ voters ∨ p.2 = "skip") then tallyInsert tally p.2
      else tally)
    []

/-- The winner scan inside `_finalize_voting_locked`: the first tally
entry whose target is in the voters snapshot with at least the needed
count. -/
def findWinner (tally : List (String × Nat)) (voters : List String)
    (majorityNeeded : Nat) : Option String :=
  match tally with
  | [] => none
  | (t, c) :: rest =>
      if t ∈ voters ∧ majorityNeeded ≤ c then some t
      else findWinner rest voters majorityNeeded

/-- Python's `str.strip()` with no argument: drop leading and trailing
whitespace (modelled on the common ASCII whitespace set). -/
def pyStrip (s : String) : String :=
  ⟨((s.data.dropWhile Char.isWhitespace).reverse.dropWhile Char.isWhitespace).reverse⟩

/-- Worker for Python's `str.split()` with no separator: cut the character
stream at whitespace runs, discarding empty pieces; `acc` holds the
current word reversed. -/
def wordsAux : List Char → List Char → List String
  | [], acc => if acc.isEmpty then [] else [String.mk acc.reverse]
  | c :: cs, acc =>
      if c.isWhitespace then
        if acc.isEmpty then wordsAux cs [] else String.mk acc.reverse :: wordsAux cs []
      else wordsAux cs (c :: acc)

/-- Python's `str.split()` with no separator. -/
def pySplit (s : String) : List String :=
  wordsAux s.data []

/-- Python's `str.casefold()`, modelled per character by `Char.toLower`;
the two agree on ASCII input such as the fixed word pool. -/
def caseFold (s : String) : String :=
  ⟨s.data.map Char.toLower⟩

/-- GameService._normalize_guess:
`" ".join(value.strip().casefold().split())`. -/
def normalizeGuess (value : String) : String :=
  String.intercalate " " (pySplit (caseFold (pyStrip value)))

/-! ### GameService operations -/

/-- The `set_ready(conn, False)` loop inside `GameService.end_game`. -/
def setReadyAll (r : RoomState) (l : List String) : RoomState :=
  l.foldl (fun s c => setReady s c false) r

/-- GameService.end_game: persist the (defaulted) result, broadcast
`game_ended`, reset every member's ready flag, re-broadcast the lobby
state, then clear roles and word/impostor, turn state (with turn order and
votes), votes, turn words and word history.  The `@room_exists` guard
fails with `RoomNotFoundError` when the room name is absent. -/
def endGame (r : RoomState) (result : Option GameResult) :
    Except GameError (RoomState × GameResult × List Event) :=
  match r.name with
  | none => .error .roomNotFound
  | some _ =>
      let (r1, res) := storeEndGame r result
      let r2 := setReadyAll r1 r1.conns
      let r3 := clearRoles r2
      let r4 := clearTurnState r3
      let r5 := { r4 with votes := [] }
      let r6 := { r5 with turnWords := [] }
      let r7 := { r6 with wordHistory := [] }
      .ok (r7, res, [.gameEnded res, .lobbyState])

/-- GameService._start_round: with an empty order raise `RuntimeError`
(`none`); otherwise clear the turn words and install a fresh active turn
state at index 0 for `order[0]`, broadcasting `round_started` and
`turn_started`. -/
def startRound (r : RoomState) (roundNum : Int) (order : List String)
    (turnDuration turnGrace voteDuration now : Int) :
    Option (RoomState × List Event) :=
  match order with
  | [] => none
  | current :: _ =>
      some
        ({ r with
            turnWords := [],
            turnState := some {
              phase := "active",
              round := roundNum,
              turnIndex := 0,
              currentConnId := current,
              deadlineTs := some (now + turnDuration),
              turnDuration := some turnDuration,
              turnGrace := some turnGrace,
              voteDuration := some voteDuration } },
          [.roundStarted roundNum order turnDuration,
           .turnStarted roundNum 0 current turnDuration])

/-- GameService._start_rounds: persist the shuffled order (given here as
the `order` oracle) and start round 1 with the configured durations; an
empty player list raises `RuntimeError`. -/
def startRounds (r : RoomState) (order : List String)
    (turnDuration turnGrace voteDuration now : Int) :
    Option (RoomState × List Event) :=
  if order.isEmpty then none
  else
    startRound { r with turnOrder := order } 1 order
      turnDuration turnGrace voteDuration now

/-- GameService._start_voting: snapshot the sorted membership as voters
(stopping when empty), switch the state to the voting phase with a fresh
vote deadline, drop the active/pause fields, and clear prior votes. -/
def startVoting (r : RoomState) (st : TurnState) (now : Int) :
    RoomState × List Event :=
  let voters := sortStrings r.conns
  match voters with
  | [] => (r, [])
  | _ :: _ =>
      let voteDuration := st.voteDuration.getD 60
      ({ r with
          turnState := some { st with
            phase := "voting",
            voteDeadlineTs := some (now + voteDuration),
            voters := some voters,
            deadlineTs := none,
            turnRemaining := none,
            graceDeadlineTs := none },
          votes := [] },
        [.roundEnded st.round, .votingStarted st.round voters voteDuration])

/-- GameService._advance_turn_locked: broadcast `turn_ended`, then either
move to the next speaker in the stored order (keeping the phase active,
with a fresh deadline and the pause fields dropped) or, when the order is
exhausted, enter the voting phase. -/
def advanceTurnLocked (r : RoomState) (st : TurnState) (now : Int)
    (reason : TurnEndReason) : RoomState × List Event :=
  let endedEv := Event.turnEnded st.round st.turnIndex st.currentConnId reason
  let order := r.turnOrder
  let next := st.turnIndex + 1
  if h : order.length ≤ next then
    let voting := startVoting r st now
    (voting.1, endedEv :: voting.2)
  else
    let nextConn := order.get ⟨next, by omega⟩
    let turnDuration := st.turnDuration.getD 30
    ({ r with
        turnState := some { st with
          phase := "active",
          turnIndex := next,
          currentConnId := nextConn,
          deadlineTs := some (now + turnDuration),
          turnRemaining := none,
          graceDeadlineTs := none } },
      [endedEv, .turnStarted st.round next nextConn turnDuration])

/-- GameService._start_next_round: when the stored order is empty, stop;
otherwise clear the votes and start the next round with the same order,
`round + 1` and the durations carried in the state. -/
def startNextRound (r : RoomState) (st : TurnState) (now : Int) :
    RoomState × List Event :=
  if r.turnOrder.isEmpty then (r, [])
  else
    (startRound { r with votes := [] } (st.round + 1) r.turnOrder
        (st.turnDuration.getD 30) (st.turnGrace.getD 60)
        (st.voteDuration.getD 60) now).getD (r, [])

/-- GameService._finalize_voting_locked: tally the recorded votes against
the frozen voters snapshot, require `total // 2 + 1` votes (0 when there
are no voters) on some target in the snapshot; on a winner broadcast the
result and end the game (crew wins iff the voted-out conn is the stored
impostor), otherwise broadcast a `no_majority` result, clear the votes and
start the next round. -/
def finalizeVotingLocked (r : RoomState) (st : TurnState) (now : Int) :
    Except GameError (RoomState × List Event) :=
  let votes := r.votes
  let voters := parseVoters st
  let tally := tallyVotes votes voters
  let totalVoters := voters.length
  let majorityNeeded := if totalVoters ≠ 0 then totalVoters / 2 + 1 else 0
  match findWinner tally voters majorityNeeded with
  | some w =>
      let crewWins := r.impostorId = some w
      let result : GameResult := {
        winner := some (if crewWins then "crew" else "impostor"),
        reason := if crewWins then "impostor_eliminated" else "crew_eliminated",
        votedOut := some w,
        impostorId := r.impostorId,
        word := r.secretWord,
        tally := tally,
        votes := votes }
      match endGame r (some result) with
      | .ok (r', _, ev) => .ok (r', .votingResult st.round result :: ev)
      | .error e => .error e
  | none =>
      let result : GameResult := {
        winner := none,
        reason := "no_majority",
        tally := tally,
        votes := votes }
      let r1 := { r with votes := [] }
      let next := startNextRound r1 st now
      .ok (next.1, .votingResult st.round result :: next.2)

/-- GameService._pause_turn_if_current: only when the phase is active and
the conn is the current speaker, record the remaining turn time and a
grace deadline and mark the state paused; `none` models the `KeyError` an
active state without `deadline_ts` would raise. -/
def pauseTurnIfCurrent (r : RoomState) (connId : String) (now : Int) :
    Option (RoomState × List Event) :=
  match getTurnStateForPhase r "active" with
  | none => some (r, [])
  | some st =>
      if st.currentConnId = connId then
        match st.deadlineTs with
        | none => none
        | some d =>
            let remaining := max 0 (d - now)
            let turnGrace := st.turnGrace.getD 60
            some
              ({ r with turnState := some { st with
                  phase := "paused",
                  turnRemaining := some remaining,
                  graceDeadlineTs := some (now + turnGrace) } },
                [.turnPaused st.round st.turnIndex connId turnGrace])
      else some (r, [])

/-- GameService._resume_turn_if_current: only when the phase is paused and
the conn is the current speaker; with no remaining time advance the turn
as skipped, otherwise restore the active phase with a fresh deadline and
drop both pause fields. -/
def resumeTurnIfCurrent (r : RoomState) (connId : String) (now : Int) :
    RoomState × List Event :=
  match getTurnStateForPhase r "paused" with
  | none => (r, [])
  | some st =>
      if st.currentConnId = connId then
        let remaining := st.turnRemaining.getD 0
        if remaining ≤ 0 then advanceTurnLocked r st now .skipped
        else
          ({ r with turnState := some { st with
              phase := "active",
              deadlineTs := some (now + remaining),
              graceDeadlineTs := none,
              turnRemaining := none } },
            [.turnResumed st.round st.turnIndex connId remaining])
      else (r, [])

/-- GameService.cast_vote: room must exist and phase must be voting; past
the deadline first finalize, then fail; the voter must be in the frozen
snapshot, the target must be `"skip"` or in the snapshot, and the voter
must not have voted yet; then record the vote, broadcast `vote_cast` with
the updated votes and tally, and finalize when every voter has voted. -/
def castVote (r : RoomState) (now : Int) (voterConnId targetConnId : String) :
    RoomState × List Event ×
      Except GameError (List (String × String) × List (String × Nat)) :=
  match r.name with
  | none => (r, [], .error .roomNotFound)
  | some _ =>
      match getTurnStateForPhase r "voting" with
      | none => (r, [], .error (.conflict "voting is not active"))
      | some st =>
          let pastDeadline : Bool := match st.voteDeadlineTs with
            | some d => decide (d ≤ now)
            | none => false
          if pastDeadline then
            match finalizeVotingLocked r st now with
            | .ok (r1, ev) => (r1, ev, .error (.conflict "voting has ended"))
            | .error e => (r, [], .error e)
          else
            let voters := parseVoters st
            if voterConnId ∉ voters then
              (r, [], .error (.forbidden "voter is not eligible"))
            else if targetConnId ≠ "skip" ∧ targetConnId ∉ voters then
              (r, [], .error (.conflict "invalid vote target"))
            else if r.votes.any (fun p => p.1 = voterConnId) then
              (r, [], .error (.conflict "vote already cast"))
            else
              let votes1 := setVote r.votes voterConnId targetConnId
              let r1 := { r with votes := votes1 }
              let tally := tallyVotes votes1 voters
              let castEv := Event.voteCast st.round voterConnId targetConnId votes1 tally
              if 0 < voters.length ∧ voters.length ≤ votes1.length then
                match finalizeVotingLocked r1 st now with
                | .ok (r2, ev) => (r2, castEv :: ev, .ok (votes1, tally))
                | .error e => (r1, [castEv], .error e)
              else (r1, [castEv], .ok (votes1, tally))

/-- The result dictionary `guess_word` builds: compare the normalized
guess (already trimmed) with the normalized stored word. -/
def guessResult (imp word cleanedGuess : String) : GameResult :=
  let correct := normalizeGuess cleanedGuess = normalizeGuess word
  { winner := some (if correct then "impostor" else "crew"),
    reason := if correct then "impostor_guessed" else "impostor_failed_guess",
    impostorId := some imp,
    guess := some cleanedGuess,
    word := some word }

/-- GameService.guess_word: room must exist, the stored impostor must be
the caller (Forbidden otherwise), the stored secret word must be truthy,
the guess must be non-empty after trimming; then compare the normalized
guess and word, build the result and end the game. -/
def guessWord (r : RoomState) (connId guess : String) :
    Except GameError (RoomState × GameResult × List Event) :=
  match r.name with
  | none => .error .roomNotFound
  | some _ =>
      match r.impostorId with
      | none => .error (.conflict "impostor is not set")
      | some imp =>
          if imp ≠ connId then .error (.forbidden "only impostor can guess the word")
          else
            match r.secretWord with
            | none => .error (.conflict "secret word is not set")
            | some word =>
                if word = "" then .error (.conflict "secret word is not set")
                else
                  let cleanedGuess := (pyStrip guess)
                  if cleanedGuess = "" then .error (.conflict "guess is required")
                  else
                    let result := guessResult imp word cleanedGuess
                    match endGame r (some result) with
                    | .ok (r', _, ev) => .ok (r', result, ev)
                    | .error e => .error e

/-! ### RoomService operations (`room_service.py`) -/

/-- RoomService.join_room: the room must exist; add the conn and return
the room name with the membership set.  No `max_players` check appears on
this path. -/
def joinRoom (r : RoomState) (roomId connId : String) (nickname : Option String) :
    Except GameError (RoomState × String × List String) :=
  match r.name with
  | none => .error .roomNotFound
  | some roomName =>
      let r1 := addConn r roomId connId nickname false
      .ok (r1, roomName, r1.conns)

/-- RoomService.disconnect: the room must exist; first issue a resume
token (snapshotting the still-present conn attributes), then remove the
conn.  The fresh random token is supplied as the `token` oracle. -/
def disconnect (r : RoomState) (roomId connId token : String) :
    Except GameError (RoomState × String) :=
  match r.name with
  | none => .error .roomNotFound
  | some _ =>
      let r1 := issueResumeToken r roomId connId token
      .ok (removeConn r1 connId, token)

/-- RoomService.reconnect: consume the token (KeyError when unknown or
when it carries no room id), require the referenced room to exist, re-add
the conn with the snapshotted nickname, and restore the ready flag when it
was set.  The consumed snapshot is returned alongside the new state. -/
def reconnect (r : RoomState) (token connId : String) :
    Except GameError (RoomState × ResumeData) :=
  match consumeResumeToken r token with
  | .error e => .error e
  | .ok (r1, resume) =>
      if resume.roomId = "" then .error .tokenNotFound
      else
        match r1.name with
        | none => .error .roomNotFound
        | some _ =>
            let ready := resume.ready = some true
            let r2 := addConn r1 resume.roomId connId resume.nickname false
            let r3 := if ready then setReady r2 connId true else r2
            .ok (r3, resume)

/-- The state `GameService.end_game` leaves behind on an existing room:
its let-chain (store end_game, ready reset, clear roles, clear turn
state, clear votes, clear turn words, clear word history) as one term. -/
def endGameResultState (r : RoomState) (res : GameResult) : RoomState :=
  { clearTurnState (clearRoles (setReadyAll
      { r with gameState := some "ended", gameResult := some res } r.conns)) with
    votes := [], turnWords := [], wordHistory := [] }

/-- A concrete turn state in the voting phase (fixture for concrete
instantiations of the theorems below). -/
def sampleVotingState : TurnState :=
  { phase := "voting", round := 1, turnIndex := 2, currentConnId := "C",
    turnDuration := some 30, turnGrace := some 60, voteDuration := some 60,
    voteDeadlineTs := some 100, voters := some ["A", "B", "C"] }

/-- A concrete three-player room mid-vote with votes `{A→B, C→B}` and
impostor `B` (fixture for concrete instantiations of the theorems
below). -/
def sampleVotingRoom : RoomState :=
  { name := some "R", conns := ["A", "B", "C"], turnOrder := ["A", "B", "C"],
    gameState := some "in_progress", impostorId := some "B",
    secretWord := some "ocean", votes := [("A", "B"), ("C", "B")],
    turnState := some sampleVotingState }

/-- Invariants 2 and 3 of the spec: while the phase is active or paused,
`turn_index` is in range and `current_conn_id` equals
`TurnOrder[turn_index]`. -/
def TurnInvariant (r : RoomState) : Prop :=
  ∀ st, r.turnState = some st → st.phase = "active" ∨ st.phase = "paused" →
    ∃ h : st.turnIndex < r.turnOrder.length,
      r.turnOrder.get ⟨st.turnIndex, h⟩ = st.currentConnId

/-- The `GameService` operations that write turn state, as a step
relation: round start (both the first round with a freshly persisted
order and `_start_next_round`), turn advance (invoked by its callers only
on an active or paused state), pause on disconnect, and resume on
reconnect. -/
inductive TurnWrite : RoomState → RoomState → Prop where
  | roundsStart (r r' : RoomState) (order : List String)
      (td tg vd now : Int) (ev : List Event) :
      startRounds r order td tg vd now = some (r', ev) → TurnWrite r r'
  | nextRound (r : RoomState) (st : TurnState) (now : Int) :
      r.turnState = some st → TurnWrite r (startNextRound r st now).1
  | advance (r : RoomState) (st : TurnState) (now : Int) (reason : TurnEndReason) :
      r.turnState = some st → st.phase = "active" ∨ st.phase = "paused" →
      TurnWrite r (advanceTurnLocked r st now reason).1
  | pauseStep (r r' : RoomState) (connId : String) (now : Int) (ev : List Event) :
      pauseTurnIfCurrent r connId now = some (r', ev) → TurnWrite r r'
  | resumeStep (r : RoomState) (connId : String) (now : Int) :
      TurnWrite r (resumeTurnIfCurrent r connId now).1

/-! ### Observables

How `get_lobby_state` reads the per-connection hashes: the displayed ready
flag is `data.get("ready") == "1"`, the nickname is `data.get("nickname")`
and the role is `data.get("role")`. -/

/-- The ready flag of a connection as the lobby exposes it. -/
def connReadyFlag (r : RoomState) (c : String) : Bool :=
  ((r.attrs c).bind (fun a => a.ready)) == some "1"

/-- The nickname of a connection as the lobby exposes it. -/
def connNickname (r : RoomState) (c : String) : Option String :=
  (r.attrs c).bind (fun a => a.nickname)

/-- The role field of a connection's hash. -/
def connRole (r : RoomState) (c : String) : Option String :=
  (r.attrs c).bind (fun a => a.role)

/-! ### Helper lemmas about the ready-reset loop -/

theorem setReadyAll_cons (r : RoomState) (x : String) (xs : List String) :
    setReadyAll r (x :: xs) = setReadyAll (setReady r x false) xs := rfl

theorem setReadyAll_eq (l : List String) :
    ∀ r : RoomState, setReadyAll r l = { r with attrs := (setReadyAll r l).attrs } := by
  induction l with
  | nil => intro r; rfl
  | cons x xs ih =>
      intro r
      rw [setReadyAll_cons, ih (setReady r x false)]
      rfl

theorem setReadyAll_attrs_not_mem (l : List String) :
    ∀ (r : RoomState) (c : String), c ∉ l →
      (setReadyAll r l).attrs c = r.attrs c := by
  induction l with
  | nil => intro r c _; rfl
  | cons x xs ih =>
      intro r c hc
      rw [setReadyAll_cons, ih (setReady r x false) c (fun h => hc (List.mem_cons_of_mem x h))]
      have hcx : c ≠ x := fun h => hc (h ▸ List.mem_cons_self x xs)
      simp [setReady, hcx]

theorem setReadyAll_attrs_mem (l : List String) :
    ∀ (r : RoomState) (c : String), c ∈ l →
      ∃ a, (setReadyAll r l).attrs c = some a ∧ a.ready = some "0" := by
  induction l with
  | nil => intro r c hc; exact absurd hc (List.not_mem_nil c)
  | cons x xs ih =>
      intro r c hc
      by_cases hxs : c ∈ xs
      · exact ih (setReady r x false) c hxs
      · have hcx : c = x := by
          rcases List.mem_cons.mp hc with h | h
          · exact h
          · exact absurd h hxs
        rw [setReadyAll_cons, setReadyAll_attrs_not_mem xs (setReady r x false) c hxs]
        subst hcx
        refine ⟨{ (r.attrs c).getD {} with ready := some "0" }, ?_, rfl⟩
        simp [setReady]

theorem setReadyAll_proj (l : List String) (r : RoomState) :
    (setReadyAll r l).name = r.name ∧ (setReadyAll r l).conns = r.conns ∧
    (setReadyAll r l).settings = r.settings ∧
    (setReadyAll r l).gameState = r.gameState ∧
    (setReadyAll r l).gameResult = r.gameResult := by
  rw [setReadyAll_eq]
  exact ⟨rfl, rfl, rfl, rfl, rfl⟩

theorem endGame_eq (r : RoomState) (nm : String) (result : Option GameResult)
    (hname : r.name = some nm) :
    endGame r result = .ok
      (endGameResultState r (result.getD { reason := "win_condition" }),
        result.getD { reason := "win_condition" },
        [.gameEnded (result.getD { reason := "win_condition" }), .lobbyState]) := by
  unfold endGame
  rw [hname]
  rfl

theorem endGameResultState_spec (r : RoomState) (res : GameResult) :
    (endGameResultState r res).gameResult = some res ∧
    (endGameResultState r res).gameState = some "ended" ∧
    (endGameResultState r res).name = r.name ∧
    (endGameResultState r res).conns = r.conns ∧
    (endGameResultState r res).settings = r.settings ∧
    (endGameResultState r res).secretWord = none ∧
    (endGameResultState r res).impostorId = none ∧
    (endGameResultState r res).turnState = none ∧
    (endGameResultState r res).turnOrder = [] ∧
    (endGameResultState r res).votes = [] ∧
    (endGameResultState r res).turnWords = [] ∧
    (endGameResultState r res).wordHistory = [] ∧
    (∀ c ∈ r.conns, connReadyFlag (endGameResultState r res) c = false) ∧
    (∀ c ∈ r.conns, connRole (endGameResultState r res) c = none) := by
  set r1 : RoomState := { r with gameState := some "ended", gameResult := some res } with hr1
  obtain ⟨pn, pc, ps, pg, pr⟩ := setReadyAll_proj r.conns r1
  have hattr : ∀ c ∈ r.conns, ∃ a : ConnAttrs,
      (endGameResultState r res).attrs c = some { a with role := none } ∧
      a.ready = some "0" := by
    intro c hc
    obtain ⟨a, ha, har⟩ := setReadyAll_attrs_mem r.conns r1 c hc
    refine ⟨a, ?_, har⟩
    show (if c ∈ (setReadyAll r1 r.conns).conns
          then ((setReadyAll r1 r.conns).attrs c).map (fun b : ConnAttrs => { b with role := none })
          else (setReadyAll r1 r.conns).attrs c) = some { a with role := none }
    rw [pc, hr1, if_pos hc, ha]
    rfl
  refine ⟨pr, pg, pn, pc, ps, rfl, rfl, rfl, rfl, rfl, rfl, rfl, ?_, ?_⟩
  · intro c hc
    obtain ⟨a, ha, har⟩ := hattr c hc
    simp [connReadyFlag, ha, har]
  · intro c hc
    obtain ⟨a, ha, _⟩ := hattr c hc
    simp [connRole, ha]

/-- C7: After `end_game` on an existing room completes, the stored result
equals the given result (defaulting to `{reason: "win_condition"}` when
absent), the game state is `"ended"`, every member's ready flag is false,
roles, secret word, impostor, turn state, votes, turn words and word
history are all absent, and the room name, membership set and settings are
unchanged. -/
theorem end_game_frame (r : RoomState) (nm : String) (result : Option GameResult)
    (hname : r.name = some nm) :
    ∃ r' res ev, endGame r result = .ok (r', res, ev) ∧
      res = result.getD { reason := "win_condition" } ∧
      r'.gameResult = some res ∧
      r'.gameState = some "ended" ∧
      (∀ c ∈ r'.conns, connReadyFlag r' c = false ∧ connRole r' c = none) ∧
      r'.secretWord = none ∧ r'.impostorId = none ∧ r'.turnState = none ∧
      r'.turnOrder = [] ∧ r'.votes = [] ∧ r'.turnWords = [] ∧
      r'.wordHistory = [] ∧
      r'.name = r.name ∧ r'.conns = r.conns ∧ r'.settings = r.settings := by
  obtain ⟨p1, p2, p3, p4, p5, p6, p7, p8, p9, p10, p11, p12, p13, p14⟩ :=
    endGameResultState_spec r (result.getD { reason := "win_condition" })
  refine ⟨_, _, _, endGame_eq r nm result hname, rfl, p1, p2, ?_,
    p6, p7, p8, p9, p10, p11, p12, p3, p4, p5⟩
  intro c hc
  rw [p4] at hc
  exact ⟨p13 c hc, p14 c hc⟩

/-- Witness for `end_game_frame` at a one-member room with no explicit
result. -/
theorem end_game_frame_witness :
    ∃ r' res ev,
      endGame ({ name := some "room", conns := ["a"] } : RoomState) none
        = .ok (r', res, ev) ∧
      res = { reason := "win_condition" } := by
  obtain ⟨r', res, ev, h1, h2, _⟩ :=
    end_game_frame { name := some "room", conns := ["a"] } "room" none rfl
  exact ⟨r', res, ev, h1, h2⟩

/-! ### guess_word lemmas -/

theorem guessWord_eq_ok (r : RoomState) (nm imp w guess : String)
    (hname : r.name = some nm) (himp : r.impostorId = some imp)
    (hword : r.secretWord = some w) (hw : w ≠ "") (htrim : (pyStrip guess) ≠ "") :
    guessWord r imp guess = .ok
      (endGameResultState r (guessResult imp w (pyStrip guess)),
        guessResult imp w (pyStrip guess),
        [.gameEnded (guessResult imp w (pyStrip guess)), .lobbyState]) := by
  simp only [guessWord, hname, himp, hword]
  rw [if_neg (fun h => h rfl), if_neg hw, if_neg htrim, endGame_eq r nm _ hname]
  rfl

/-- C6: `guess_word` fails with Forbidden for every caller other than the
stored impostor and rejects a guess that is empty after trimming;
otherwise it compares the guess and the stored secret word after
case-folding, collapsing internal whitespace and trimming both, ending
the game with winner "impostor" / reason "impostor_guessed" when they are
equal and winner "crew" / reason "impostor_failed_guess" when they
differ. -/
theorem guess_word_spec (r : RoomState) (nm imp w connId guess : String)
    (hname : r.name = some nm) (himp : r.impostorId = some imp)
    (hword : r.secretWord = some w) (hw : w ≠ "") :
    (connId ≠ imp →
      guessWord r connId guess = .error (.forbidden "only impostor can guess the word")) ∧
    ((pyStrip guess) = "" →
      guessWord r imp guess = .error (.conflict "guess is required")) ∧
    ((pyStrip guess) ≠ "" →
      ∃ r' res ev, guessWord r imp guess = .ok (r', res, ev) ∧
        res.winner = some (if normalizeGuess (pyStrip guess) = normalizeGuess w
          then "impostor" else "crew") ∧
        res.reason = (if normalizeGuess (pyStrip guess) = normalizeGuess w
          then "impostor_guessed" else "impostor_failed_guess") ∧
        res.guess = some (pyStrip guess) ∧ res.word = some w ∧
        res.impostorId = some imp ∧
        r'.gameState = some "ended" ∧ r'.gameResult = some res) := by
  refine ⟨?_, ?_, ?_⟩
  · intro hne
    simp only [guessWord, hname, himp]
    rw [if_pos (Ne.symm hne)]
  · intro htrim
    simp only [guessWord, hname, himp, hword]
    rw [if_neg (fun h => h rfl), if_neg hw, if_pos htrim]
  · intro htrim
    obtain ⟨p1, p2, _⟩ := endGameResultState_spec r (guessResult imp w (pyStrip guess))
    exact ⟨_, _, _, guessWord_eq_ok r nm imp w guess hname himp hword hw htrim,
      rfl, rfl, rfl, rfl, rfl, p2, p1⟩

/-- Witness for `guess_word_spec`: secret word "Banana", guess "banana"
ends the game with winner impostor, reason impostor_guessed. -/
theorem guess_word_spec_witness :
    ∃ r' res ev,
      guessWord ({ name := some "R",
                   impostorId := some "imp",
                   secretWord := some "Banana" } : RoomState) "imp" "banana"
        = .ok (r', res, ev) ∧
      res.winner = some "impostor" ∧ res.reason = "impostor_guessed" := by
  obtain ⟨-, -, h3⟩ := guess_word_spec
    { name := some "R", impostorId := some "imp", secretWord := some "Banana" }
    "R" "imp" "Banana" "x" "banana" rfl rfl rfl (by decide)
  obtain ⟨r', res, ev, h, hwin, hreason, -⟩ := h3 (by decide)
  have hval : normalizeGuess (pyStrip "banana") = normalizeGuess "Banana" := by decide
  rw [if_pos hval] at hwin
  rw [if_pos hval] at hreason
  exact ⟨r', res, ev, h, hwin, hreason⟩

/-- C10: `guess_word` has no phase or game-state precondition: with the
impostor and a truthy secret word stored, a call by the impostor with a
non-empty guess succeeds and ends the game whatever the turn state and
game state are, and an error implies the room is missing, the impostor or
secret word is unset (or empty), the caller is not the impostor, or the
guess is empty after trimming. -/
theorem guess_word_no_precondition (r : RoomState) (nm imp w connId guess : String)
    (ts : Option TurnState) (gs : Option String) :
    (r.name = some nm → r.impostorId = some imp → r.secretWord = some w →
      w ≠ "" → (pyStrip guess) ≠ "" →
      ∃ r' res ev,
        guessWord { r with turnState := ts, gameState := gs } imp guess
          = .ok (r', res, ev) ∧ r'.gameState = some "ended") ∧
    (∀ e, guessWord r connId guess = .error e →
      r.name = none ∨ r.impostorId = none ∨ r.impostorId ≠ some connId ∨
      r.secretWord = none ∨ r.secretWord = some "" ∨ (pyStrip guess) = "") := by
  constructor
  · intro hname himp hword hw htrim
    obtain ⟨p1, p2, _⟩ := endGameResultState_spec
      { r with turnState := ts, gameState := gs } (guessResult imp w (pyStrip guess))
    exact ⟨_, _, _,
      guessWord_eq_ok { r with turnState := ts, gameState := gs } nm imp w guess
        hname himp hword hw htrim, p2⟩
  · intro e he
    rcases hn : r.name with _ | nm2
    · exact Or.inl rfl
    rcases hi : r.impostorId with _ | imp2
    · exact Or.inr (Or.inl rfl)
    by_cases hc : imp2 = connId
    swap
    · refine Or.inr (Or.inr (Or.inl ?_))
      simp [hi, hc]
    rcases hw2 : r.secretWord with _ | w2
    · exact Or.inr (Or.inr (Or.inr (Or.inl rfl)))
    by_cases hwe : w2 = ""
    · exact Or.inr (Or.inr (Or.inr (Or.inr (Or.inl (by rw [hwe])))))
    by_cases ht : (pyStrip guess) = ""
    · exact Or.inr (Or.inr (Or.inr (Or.inr (Or.inr ht))))
    rw [hc] at hi
    rw [guessWord_eq_ok r nm2 connId w2 guess hn hi hw2 hwe ht] at he
    exact absurd he (by simp)

/-- Witness for `guess_word_no_precondition`: the impostor can guess even
while a room is mid-vote with a deadline in the past. -/
theorem guess_word_no_precondition_witness :
    ∃ r' res ev,
      guessWord ({ name := some "R",
                   impostorId := some "imp",
                   secretWord := some "ocean",
                   turnState := some { phase := "voting", round := 1, turnIndex := 1,
                                       currentConnId := "a", voteDeadlineTs := some 0,
                                       voters := some ["a", "imp"] },
                   gameState := some "in_progress" } : RoomState) "imp" "ocean"
        = .ok (r', res, ev) ∧ r'.gameState = some "ended" := by
  obtain ⟨h1, -⟩ := guess_word_no_precondition
    { name := some "R", impostorId := some "imp", secretWord := some "ocean" }
    "R" "imp" "ocean" "imp" "ocean"
    (some { phase := "voting", round := 1, turnIndex := 1,
            currentConnId := "a", voteDeadlineTs := some 0,
            voters := some ["a", "imp"] })
    (some "in_progress")
  exact h1 rfl rfl rfl (by decide) (by decide)

/-! ### Pause / resume (C5) -/

theorem advanceTurnLocked_events_head (r : RoomState) (st : TurnState)
    (now : Int) (reason : TurnEndReason) :
    (advanceTurnLocked r st now reason).2.head? =
      some (.turnEnded st.round st.turnIndex st.currentConnId reason) := by
  by_cases h : r.turnOrder.length ≤ st.turnIndex + 1
  · simp [advanceTurnLocked, h]
  · simp [advanceTurnLocked, h]

/-- C5: `handle_disconnect` mutates turn state only when the phase is
active and the disconnecting conn is the current speaker, recording
`turn_remaining = max(0, deadline_ts - now)` and
`grace_deadline_ts = now + turn_grace` with phase paused;
`handle_reconnect` on a paused state for the current speaker advances the
turn as skipped when `turn_remaining ≤ 0` and otherwise restores the
active phase with `deadline_ts = now + turn_remaining`, dropping both
pause fields. -/
theorem pause_resume_turn_spec (r : RoomState) (st : TurnState) (connId : String)
    (now d rem : Int) :
    (r.turnState = some st → st.phase = "active" → st.currentConnId = connId →
      st.deadlineTs = some d →
      pauseTurnIfCurrent r connId now = some
        ({ r with turnState := some { st with
            phase := "paused",
            turnRemaining := some (max 0 (d - now)),
            graceDeadlineTs := some (now + st.turnGrace.getD 60) } },
          [.turnPaused st.round st.turnIndex connId (st.turnGrace.getD 60)])) ∧
    ((∀ st', r.turnState = some st' →
        ¬(st'.phase = "active" ∧ st'.currentConnId = connId)) →
      pauseTurnIfCurrent r connId now = some (r, [])) ∧
    (r.turnState = some st → st.phase = "paused" → st.currentConnId = connId →
      st.turnRemaining.getD 0 ≤ 0 →
      resumeTurnIfCurrent r connId now = advanceTurnLocked r st now .skipped ∧
      (advanceTurnLocked r st now .skipped).2.head? =
        some (.turnEnded st.round st.turnIndex connId .skipped)) ∧
    (r.turnState = some st → st.phase = "paused" → st.currentConnId = connId →
      st.turnRemaining = some rem → 0 < rem →
      resumeTurnIfCurrent r connId now =
        ({ r with turnState := some { st with
            phase := "active",
            deadlineTs := some (now + rem),
            graceDeadlineTs := none,
            turnRemaining := none } },
          [.turnResumed st.round st.turnIndex connId rem])) := by
  refine ⟨?_, ?_, ?_, ?_⟩
  · intro h1 h2 h3 h4
    subst h3
    simp [pauseTurnIfCurrent, getTurnStateForPhase, h1, h2, h4]
  · intro hno
    rcases hts : r.turnState with _ | st'
    · simp [pauseTurnIfCurrent, getTurnStateForPhase, hts]
    by_cases hp : st'.phase = "active"
    · have hcur : ¬(st'.currentConnId = connId) :=
        fun hcur => hno st' hts ⟨hp, hcur⟩
      simp [pauseTurnIfCurrent, getTurnStateForPhase, hts, hp, hcur]
    · simp [pauseTurnIfCurrent, getTurnStateForPhase, hts, hp]
  · intro h1 h2 h3 h4
    subst h3
    constructor
    · simp [resumeTurnIfCurrent, getTurnStateForPhase, h1, h2, h4]
    · exact advanceTurnLocked_events_head r st now .skipped
  · intro h1 h2 h3 h4 h5
    subst h3
    have hnot : ¬(rem ≤ 0) := by omega
    simp [resumeTurnIfCurrent, getTurnStateForPhase, h1, h2, h4, hnot]

/-- Witness for `pause_resume_turn_spec`: pausing a concrete active turn
records 7 seconds remaining and a grace deadline. -/
theorem pause_resume_turn_spec_witness :
    pauseTurnIfCurrent
      ({ name := some "R", conns := ["a", "b"], turnOrder := ["a", "b"],
         turnState := some { phase := "active", round := 1, turnIndex := 0,
                             currentConnId := "a", deadlineTs := some 10,
                             turnDuration := some 30, turnGrace := some 60,
                             voteDuration := some 60 } } : RoomState) "a" 3
      = some
        ({ name := some "R", conns := ["a", "b"], turnOrder := ["a", "b"],
           turnState := some { phase := "paused", round := 1, turnIndex := 0,
                               currentConnId := "a", deadlineTs := some 10,
                               turnDuration := some 30, turnGrace := some 60,
                               voteDuration := some 60,
                               turnRemaining := some 7,
                               graceDeadlineTs := some 63 } },
          [.turnPaused 1 0 "a" 60]) := by
  have h := (pause_resume_turn_spec
    { name := some "R", conns := ["a", "b"], turnOrder := ["a", "b"],
      turnState := some { phase := "active", round := 1, turnIndex := 0,
                          currentConnId := "a", deadlineTs := some 10,
                          turnDuration := some 30, turnGrace := some 60,
                          voteDuration := some 60 } }
    { phase := "active", round := 1, turnIndex := 0,
      currentConnId := "a", deadlineTs := some 10,
      turnDuration := some 30, turnGrace := some 60, voteDuration := some 60 }
    "a" 3 10 0).1 rfl rfl rfl rfl
  rw [h]
  rfl

/-! ### Sortedness of `sortStrings`, membership in `insertConn` (C8) -/

theorem mem_insertSorted (x a : String) :
    ∀ l : List String, a ∈ insertSorted x l ↔ a = x ∨ a ∈ l := by
  intro l
  induction l with
  | nil => simp [insertSorted]
  | cons y ys ih =>
      rw [insertSorted]
      by_cases hxy : x ≤ y
      · rw [if_pos hxy]
        simp
      · rw [if_neg hxy]
        simp [ih]
        tauto

theorem sorted_insertSorted (x : String) :
    ∀ l : List String, l.Sorted (· ≤ ·) → (insertSorted x l).Sorted (· ≤ ·) := by
  intro l
  induction l with
  | nil =>
      intro _
      simp [insertSorted]
  | cons y ys ih =>
      intro h
      obtain ⟨hy, hys⟩ := List.sorted_cons.mp h
      rw [insertSorted]
      by_cases hxy : x ≤ y
      · rw [if_pos hxy]
        refine List.sorted_cons.mpr ⟨?_, h⟩
        intro b hb
        rcases List.mem_cons.mp hb with hb | hb
        · exact hb ▸ hxy
        · exact le_trans hxy (hy b hb)
      · rw [if_neg hxy]
        refine List.sorted_cons.mpr ⟨?_, ih hys⟩
        intro b hb
        rcases (mem_insertSorted x b ys).mp hb with hb | hb
        · exact hb ▸ le_of_not_le hxy
        · exact hy b hb


theorem mem_sortStrings (a : String) :
    ∀ l : List String, a ∈ sortStrings l ↔ a ∈ l := by
  intro l
  induction l with
  | nil => simp [sortStrings]
  | cons x xs ih =>
      show a ∈ insertSorted x (sortStrings xs) ↔ _
      rw [mem_insertSorted, ih]
      simp

theorem sorted_sortStrings : ∀ l : List String, (sortStrings l).Sorted (· ≤ ·) := by
  intro l
  induction l with
  | nil => simp [sortStrings]
  | cons x xs ih => exact sorted_insertSorted x (sortStrings xs) ih

theorem sortStrings_head_least (l : List String) (m : String) (rest : List String)
    (h : sortStrings l = m :: rest) : m ∈ l ∧ ∀ c ∈ l, m ≤ c := by
  constructor
  · exact (mem_sortStrings m l).mp (h ▸ List.mem_cons_self m rest)
  · intro c hc
    have hc' : c ∈ m :: rest := h ▸ (mem_sortStrings c l).mpr hc
    rcases List.mem_cons.mp hc' with hc' | hc'
    · exact hc' ▸ le_refl m
    · have hs := sorted_sortStrings l
      rw [h] at hs
      exact (List.sorted_cons.mp hs).1 c hc'

theorem mem_insertConn_self (l : List String) (c : String) :
    c ∈ insertConn l c := by
  unfold insertConn
  by_cases h : c ∈ l
  · rw [if_pos h]; exact h
  · rw [if_neg h]; simp

theorem mem_insertConn_of_mem (l : List String) (c a : String) (h : a ∈ l) :
    a ∈ insertConn l c := by
  unfold insertConn
  by_cases hc : c ∈ l
  · rw [if_pos hc]; exact h
  · rw [if_neg hc]; exact List.mem_append_left _ h

/-- C8: the host is always either unset or a member of the room's
connection set: `add_conn` sets the joining conn as host only when no host
exists, and `remove_conn`, when the removed conn was the host, reassigns
the host to the lexicographically smallest remaining conn id or clears it
when no members remain. -/
theorem host_member_invariant (r : RoomState) (roomId connId : String)
    (nickname : Option String) (ready : Bool) :
    ((∀ h, r.host = some h → h ∈ r.conns) →
      ∀ h, (addConn r roomId connId nickname ready).host = some h →
        h ∈ (addConn r roomId connId nickname ready).conns) ∧
    (r.host = none → (addConn r roomId connId nickname ready).host = some connId) ∧
    (∀ h0, r.host = some h0 → (addConn r roomId connId nickname ready).host = some h0) ∧
    ((∀ h, r.host = some h → h ∈ r.conns) →
      ∀ h, (removeConn r connId).host = some h → h ∈ (removeConn r connId).conns) ∧
    (r.host = some connId → r.conns.erase connId ≠ [] →
      ∃ m, (removeConn r connId).host = some m ∧
        m ∈ (removeConn r connId).conns ∧
        ∀ c ∈ (removeConn r connId).conns, m ≤ c) ∧
    (r.host = some connId → r.conns.erase connId = [] →
      (removeConn r connId).host = none) := by
  refine ⟨?_, ?_, ?_, ?_, ?_, ?_⟩
  · intro hinv h hh
    rcases hr : r.host with _ | h0
    · have : (addConn r roomId connId nickname ready).host = some connId := by
        simp [addConn, hr]
      rw [this] at hh
      cases hh
      exact mem_insertConn_self r.conns connId
    · have : (addConn r roomId connId nickname ready).host = some h0 := by
        simp [addConn, hr]
      rw [this] at hh
      cases hh
      exact mem_insertConn_of_mem _ _ _ (hinv _ hr)
  · intro hr
    simp [addConn, hr]
  · intro h0 hr
    simp [addConn, hr]
  · intro hinv h hh
    by_cases hH : r.host = some connId
    · have hh' : (match sortStrings (r.conns.erase connId) with
          | [] => none
          | m :: _ => some m) = some h := by
        rw [← hh]
        simp [removeConn, hH]
      rcases hs : sortStrings (r.conns.erase connId) with _ | ⟨m, rest⟩
      · rw [hs] at hh'
        cases hh'
      · rw [hs] at hh'
        cases hh'
        show h ∈ r.conns.erase connId
        exact (mem_sortStrings h (r.conns.erase connId)).mp
          (hs ▸ List.mem_cons_self h rest)
    · have hh' : r.host = some h := by
        rw [← hh]
        simp [removeConn, hH]
      have hmem := hinv h hh'
      have hne : h ≠ connId := by
        intro he
        exact hH (he ▸ hh')
      show h ∈ r.conns.erase connId
      exact List.mem_erase_of_ne hne |>.mpr hmem
  · intro hH hne
    rcases hs : sortStrings (r.conns.erase connId) with _ | ⟨m, rest⟩
    · exact absurd (List.eq_nil_iff_forall_not_mem.mpr (fun a ha =>
        (List.not_mem_nil a) ((hs ▸ (mem_sortStrings a _).mpr ha)))) hne
    · obtain ⟨hm, hleast⟩ := sortStrings_head_least (r.conns.erase connId) m rest hs
      refine ⟨m, ?_, hm, hleast⟩
      simp [removeConn, hH, hs]
  · intro hH hnil
    have hs : sortStrings (r.conns.erase connId) = [] := by
      rw [hnil]
      rfl
    simp [removeConn, hH, hs]

/-- Witness for `host_member_invariant`: removing the host of
`{"b","a","c"}` reassigns the host to the least remaining conn id. -/
theorem host_member_invariant_witness :
    ∃ m, (removeConn { name := some "R", conns := ["b", "a", "c"], host := some "b" } "b").host = some m ∧
      m ∈ (removeConn { name := some "R", conns := ["b", "a", "c"], host := some "b" } "b").conns ∧
      ∀ c ∈ (removeConn { name := some "R", conns := ["b", "a", "c"], host := some "b" } "b").conns, m ≤ c := by
  have h := (host_member_invariant
    { name := some "R", conns := ["b", "a", "c"], host := some "b" }
    "R" "b" none false).2.2.2.2.1 rfl (by decide)
  exact h

/-! ### join_room and max_players (C9) -/

/-- C9 evaluation: `join_room` admits a third conn into a room whose
`max_players` setting is 2 — no code path enforces the setting, so no
Conflict is raised and the membership grows to 3. -/
theorem join_room_ignores_max_players :
    ∃ r' : RoomState,
      joinRoom { name := some "Test Room", conns := ["a", "b"], host := some "a", settings := [("max_players", "2")] } "RID23456" "c" none
        = .ok (r', "Test Room", ["a", "b", "c"]) ∧
      r'.conns = ["a", "b", "c"] ∧
      r'.settings = [("max_players", "2")] := by
  exact ⟨_, rfl, rfl, rfl⟩

/-! ### Disconnect / reconnect round trip (C3) -/

theorem setReady_attrs_self (r : RoomState) (c : String) (b : Bool) :
    (setReady r c b).attrs c
      = some { (r.attrs c).getD {} with ready := some (if b then "1" else "0") } := by
  simp [setReady]

theorem addConn_attrs_self_none (r : RoomState) (roomId c : String) (rdy : Bool) :
    (addConn r roomId c none rdy).attrs c
      = some { (r.attrs c).getD {} with roomId := some roomId, ready := some (if rdy then "1" else "0") } := by
  simp [addConn]

theorem addConn_attrs_self_some (r : RoomState) (roomId c n : String) (rdy : Bool)
    (hn : n ≠ "") :
    (addConn r roomId c (some n) rdy).attrs c
      = some { (r.attrs c).getD {} with roomId := some roomId, ready := some (if rdy then "1" else "0"), nickname := some n } := by
  simp [addConn, hn]

theorem ready_map_true (o : Option String) :
    o.map (fun v => decide (v = "1")) = some true ↔ o = some "1" := by
  cases o <;> simp

/-- C3: for a member of an existing room, `disconnect` followed by
`reconnect` with the issued token restores the member with the same
conn id, the same nickname and the same ready flag as at the moment the
token was issued, and the token cannot be reused: a second consume fails
with a not-found error. -/
theorem disconnect_reconnect_roundtrip (r : RoomState)
    (nm roomId connId token : String) (a : ConnAttrs)
    (hname : r.name = some nm) (hroom : roomId ≠ "")
    (hattrs : r.attrs connId = some a) (hnick : a.nickname ≠ some "") :
    ∃ r1 r3 resume,
      disconnect r roomId connId token = .ok (r1, token) ∧
      reconnect r1 token connId = .ok (r3, resume) ∧
      resume.connId = connId ∧
      connId ∈ r3.conns ∧
      connNickname r3 connId = connNickname r connId ∧
      connReadyFlag r3 connId = connReadyFlag r connId ∧
      consumeResumeToken r3 token = .error .tokenNotFound := by
  set R1 := removeConn (issueResumeToken r roomId connId token) connId with hR1
  have hdis : disconnect r roomId connId token = .ok (R1, token) := by
    simp only [disconnect, hname]
  have htok : R1.tokens token = some { roomId := roomId, connId := connId, nickname := a.nickname, ready := a.ready, role := a.role } := by
    show (if token = token then some { roomId := roomId, connId := connId, nickname := (r.attrs connId).bind (fun x => x.nickname), ready := (r.attrs connId).bind (fun x => x.ready), role := (r.attrs connId).bind (fun x => x.role) } else r.tokens token) = _
    rw [if_pos rfl, hattrs]
    rfl
  have hcons : consumeResumeToken R1 token = .ok ({ R1 with tokens := fun t => if t = token then none else R1.tokens t }, { roomId := roomId, connId := connId, nickname := a.nickname, ready := a.ready.map (fun v => decide (v = "1")), role := a.role }) := by
    simp only [consumeResumeToken, htok]
  have hR1name : R1.name = some nm := hname
  have hR1attrs : R1.attrs connId = none := by
    show (if connId = connId then none else (issueResumeToken r roomId connId token).attrs connId) = none
    rw [if_pos rfl]
  have hRHSnick : connNickname r connId = a.nickname := by
    simp [connNickname, hattrs]
  have hRHSflag : connReadyFlag r connId = (a.ready == some "1") := by
    simp [connReadyFlag, hattrs]
  by_cases hP : (a.ready.map (fun v => decide (v = "1"))) = some true
  · refine ⟨R1,
      setReady (addConn { R1 with tokens := fun t => if t = token then none else R1.tokens t } roomId connId a.nickname false) connId true,
      { roomId := roomId, connId := connId, nickname := a.nickname, ready := a.ready.map (fun v => decide (v = "1")), role := a.role },
      hdis, ?_, rfl, ?_, ?_, ?_, ?_⟩
    · simp [reconnect, hcons, hroom, hR1name, hP]
    · exact mem_insertConn_self _ _
    · rw [hRHSnick]
      rcases hn : a.nickname with _ | n
      · simp [connNickname, setReady_attrs_self, addConn_attrs_self_none, hR1attrs]
      · have hne : n ≠ "" := by
          intro he
          exact hnick (he ▸ hn)
        simp [connNickname, setReady_attrs_self, addConn_attrs_self_some _ _ _ _ _ hne, hR1attrs]
    · rw [hRHSflag, (ready_map_true a.ready).mp hP]
      simp [connReadyFlag, setReady_attrs_self]
    · have htokgone : (setReady (addConn { R1 with tokens := fun t => if t = token then none else R1.tokens t } roomId connId a.nickname false) connId true).tokens token = none := by
        show (if token = token then none else R1.tokens token) = none
        rw [if_pos rfl]
      simp [consumeResumeToken, htokgone]
  · refine ⟨R1,
      addConn { R1 with tokens := fun t => if t = token then none else R1.tokens t } roomId connId a.nickname false,
      { roomId := roomId, connId := connId, nickname := a.nickname, ready := a.ready.map (fun v => decide (v = "1")), role := a.role },
      hdis, ?_, rfl, ?_, ?_, ?_, ?_⟩
    · simp [reconnect, hcons, hroom, hR1name, hP]
    · exact mem_insertConn_self _ _
    · rw [hRHSnick]
      rcases hn : a.nickname with _ | n
      · simp [connNickname, addConn_attrs_self_none, hR1attrs]
      · have hne : n ≠ "" := by
          intro he
          exact hnick (he ▸ hn)
        simp [connNickname, addConn_attrs_self_some _ _ _ _ _ hne, hR1attrs]
    · have hne1 : a.ready ≠ some "1" := fun he => hP ((ready_map_true a.ready).mpr he)
      rw [hRHSflag, beq_eq_false_iff_ne.mpr hne1]
      rcases hn : a.nickname with _ | n
      · simp [connReadyFlag, addConn_attrs_self_none, hR1attrs]
      · have hne : n ≠ "" := by
          intro he
          exact hnick (he ▸ hn)
        simp [connReadyFlag, addConn_attrs_self_some _ _ _ _ _ hne, hR1attrs]
    · have htokgone : (addConn { R1 with tokens := fun t => if t = token then none else R1.tokens t } roomId connId a.nickname false).tokens token = none := by
        show (if token = token then none else R1.tokens token) = none
        rw [if_pos rfl]
      simp [consumeResumeToken, htokgone]

/-- Witness for `disconnect_reconnect_roundtrip`: a ready member "a" with
nickname "Ann" leaves and comes back unchanged. -/
theorem disconnect_reconnect_roundtrip_witness :
    ∃ r1 r3 resume,
      disconnect { name := some "R", conns := ["a", "b"], host := some "a", attrs := fun c => if c = "a" then some { roomId := some "RID", nickname := some "Ann", ready := some "1" } else none } "RID" "a" "tok1"
        = .ok (r1, "tok1") ∧
      reconnect r1 "tok1" "a" = .ok (r3, resume) ∧
      resume.connId = "a" ∧
      "a" ∈ r3.conns ∧
      connNickname r3 "a" = connNickname { name := some "R", conns := ["a", "b"], host := some "a", attrs := fun c => if c = "a" then some { roomId := some "RID", nickname := some "Ann", ready := some "1" } else none } "a" ∧
      connReadyFlag r3 "a" = connReadyFlag { name := some "R", conns := ["a", "b"], host := some "a", attrs := fun c => if c = "a" then some { roomId := some "RID", nickname := some "Ann", ready := some "1" } else none } "a" ∧
      consumeResumeToken r3 "tok1" = .error .tokenNotFound := by
  exact disconnect_reconnect_roundtrip
    { name := some "R", conns := ["a", "b"], host := some "a", attrs := fun c => if c = "a" then some { roomId := some "RID", nickname := some "Ann", ready := some "1" } else none }
    "R" "RID" "a" "tok1"
    { roomId := some "RID", nickname := some "Ann", ready := some "1" }
    rfl (by decide) (by simp) (by simp)

/-! ### Voting finalization (C1) -/

theorem tallyVotes_nil (votes : List (String × String)) :
    tallyVotes votes [] = [] := by
  have key : ∀ (l : List (String × String)) (acc : List (String × Nat)),
      l.foldl (fun tally p =>
        if p.1 ∈ ([] : List String) ∧ (p.2 ∈ ([] : List String) ∨ p.2 = "skip")
        then tallyInsert tally p.2 else tally) acc = acc := by
    intro l
    induction l with
    | nil => intro acc; rfl
    | cons x xs ih =>
        intro acc
        rw [List.foldl_cons, if_neg (fun h => List.not_mem_nil x.1 h.1)]
        exact ih acc
  exact key votes []

theorem findWinner_eq_none_iff (voters : List String) (m : Nat) :
    ∀ tally : List (String × Nat),
      findWinner tally voters m = none ↔
        ∀ p ∈ tally, ¬(p.1 ∈ voters ∧ m ≤ p.2) := by
  intro tally
  induction tally with
  | nil => simp [findWinner]
  | cons q rest ih =>
      obtain ⟨t, c⟩ := q
      rw [findWinner]
      by_cases h : t ∈ voters ∧ m ≤ c
      · rw [if_pos h]
        constructor
        · intro habs
          exact absurd habs (by simp)
        · intro hall
          exact absurd h (hall (t, c) (List.mem_cons_self _ _))
      · rw [if_neg h, ih]
        constructor
        · intro hall p hp
          rcases List.mem_cons.mp hp with hp | hp
          · rw [hp]
            exact h
          · exact hall p hp
        · intro hall p hp
          exact hall p (List.mem_cons_of_mem _ hp)

theorem findWinner_some_mem (voters : List String) (m : Nat) (w : String) :
    ∀ tally : List (String × Nat),
      findWinner tally voters m = some w → w ∈ voters := by
  intro tally
  induction tally with
  | nil => intro h; exact absurd h (by simp [findWinner])
  | cons q rest ih =>
      obtain ⟨t, c⟩ := q
      rw [findWinner]
      by_cases h : t ∈ voters ∧ m ≤ c
      · rw [if_pos h]
        intro he
        cases he
        exact h.1
      · rw [if_neg h]
        exact ih

/-- C1: `finalize_voting` with voter snapshot `V` uses
`majority = |V| / 2 + 1`; when some non-skip target in `V` reaches the
majority the game ends and the crew wins exactly when the voted-out
target is the stored impostor (reason `impostor_eliminated`, otherwise
winner impostor with reason `crew_eliminated`); when no such target
exists no `end_game` occurs, the votes are cleared and a new round starts
with `round + 1`, the same turn order and the same durations. -/
theorem finalize_voting_spec (r : RoomState) (nm : String) (st : TurnState)
    (now : Int) (hname : r.name = some nm) (_hphase : st.phase = "voting")
    (hskip : "skip" ∉ parseVoters st) (horder : r.turnOrder ≠ []) :
    ((∃ p ∈ tallyVotes r.votes (parseVoters st),
        p.1 ∈ parseVoters st ∧ p.1 ≠ "skip" ∧
        (parseVoters st).length / 2 + 1 ≤ p.2) →
      ∃ w res r' ev,
        res.votedOut = some w ∧ w ∈ parseVoters st ∧
        finalizeVotingLocked r st now
          = .ok (r', .votingResult st.round res :: .gameEnded res :: ev) ∧
        r'.gameState = some "ended" ∧ r'.gameResult = some res ∧
        res.winner = some (if r.impostorId = some w then "crew" else "impostor") ∧
        res.reason
          = (if r.impostorId = some w then "impostor_eliminated" else "crew_eliminated")) ∧
    ((∀ p ∈ tallyVotes r.votes (parseVoters st),
        ¬(p.1 ∈ parseVoters st ∧ p.1 ≠ "skip" ∧
          (parseVoters st).length / 2 + 1 ≤ p.2)) →
      ∃ r' current rest,
        r.turnOrder = current :: rest ∧
        finalizeVotingLocked r st now = .ok (r',
          [.votingResult st.round { winner := none, reason := "no_majority", tally := tallyVotes r.votes (parseVoters st), votes := r.votes },
           .roundStarted (st.round + 1) r.turnOrder (st.turnDuration.getD 30),
           .turnStarted (st.round + 1) 0 current (st.turnDuration.getD 30)]) ∧
        r'.gameState = r.gameState ∧
        r'.votes = [] ∧
        r'.turnOrder = r.turnOrder ∧
        r'.turnState = some { phase := "active", round := st.round + 1, turnIndex := 0, currentConnId := current, deadlineTs := some (now + st.turnDuration.getD 30), turnDuration := some (st.turnDuration.getD 30), turnGrace := some (st.turnGrace.getD 60), voteDuration := some (st.voteDuration.getD 60) }) := by
  constructor
  · rintro ⟨p, hp, hpV, -, hpmaj⟩
    have hVne : parseVoters st ≠ [] := List.ne_nil_of_mem hpV
    have hlen : (parseVoters st).length ≠ 0 :=
      fun h => hVne (List.length_eq_zero.mp h)
    have hmaj : (if (parseVoters st).length ≠ 0
        then (parseVoters st).length / 2 + 1 else 0)
        = (parseVoters st).length / 2 + 1 := if_pos hlen
    obtain ⟨w, hw⟩ : ∃ w, findWinner (tallyVotes r.votes (parseVoters st))
        (parseVoters st) ((parseVoters st).length / 2 + 1) = some w := by
      rcases hfw : findWinner (tallyVotes r.votes (parseVoters st))
          (parseVoters st) ((parseVoters st).length / 2 + 1) with _ | w
      · rw [findWinner_eq_none_iff] at hfw
        exact absurd ⟨hpV, hpmaj⟩ (hfw p hp)
      · exact ⟨w, rfl⟩
    have hwV : w ∈ parseVoters st := findWinner_some_mem _ _ w _ hw
    have hw' : findWinner (tallyVotes r.votes (parseVoters st)) (parseVoters st)
        (if (parseVoters st).length ≠ 0 then (parseVoters st).length / 2 + 1 else 0)
        = some w := by rw [hmaj]; exact hw
    set RES : GameResult := { winner := some (if r.impostorId = some w then "crew" else "impostor"), reason := if r.impostorId = some w then "impostor_eliminated" else "crew_eliminated", votedOut := some w, impostorId := r.impostorId, word := r.secretWord, tally := tallyVotes r.votes (parseVoters st), votes := r.votes } with hRES
    refine ⟨w, RES, endGameResultState r RES, [.lobbyState], rfl, hwV, ?_, ?_, ?_, rfl, rfl⟩
    · rw [hRES]
      simp only [finalizeVotingLocked, hw', endGame_eq r nm _ hname, Option.getD_some]
    · exact (endGameResultState_spec r RES).2.1
    · exact (endGameResultState_spec r RES).1
  · intro hnone
    rcases hord : r.turnOrder with _ | ⟨current, rest⟩
    · exact absurd hord horder
    have hfw : findWinner (tallyVotes r.votes (parseVoters st)) (parseVoters st)
        (if (parseVoters st).length ≠ 0 then (parseVoters st).length / 2 + 1 else 0)
        = none := by
      by_cases hV : parseVoters st = []
      · rw [hV, tallyVotes_nil]
        rfl
      · rw [if_pos (fun h => hV (List.length_eq_zero.mp h))]
        rw [findWinner_eq_none_iff]
        intro p hp hcontra
        have hpskip : p.1 ≠ "skip" := fun he => hskip (he ▸ hcontra.1)
        exact hnone p hp ⟨hcontra.1, hpskip, hcontra.2⟩
    refine ⟨{ r with votes := [], turnWords := [], turnState := some { phase := "active", round := st.round + 1, turnIndex := 0, currentConnId := current, deadlineTs := some (now + st.turnDuration.getD 30), turnDuration := some (st.turnDuration.getD 30), turnGrace := some (st.turnGrace.getD 60), voteDuration := some (st.voteDuration.getD 60) } }, current, rest, rfl, ?_, rfl, rfl, hord, rfl⟩
    simp only [finalizeVotingLocked, hfw, startNextRound, startRound, hord,
      List.isEmpty_cons, Bool.false_eq_true, if_false, Option.getD_some]

/-- Witness for `finalize_voting_spec`: with voters `[A, B, C]`, votes
`{A→B, C→B}` and impostor `B`, finalization ends the game and `B` is
voted out. -/
theorem finalize_voting_spec_witness :
    ∃ w res r' ev,
      res.votedOut = some w ∧ w ∈ parseVoters sampleVotingState ∧
      finalizeVotingLocked sampleVotingRoom sampleVotingState 5
        = .ok (r', .votingResult sampleVotingState.round res :: .gameEnded res :: ev) ∧
      r'.gameState = some "ended" ∧ r'.gameResult = some res ∧
      res.winner = some (if sampleVotingRoom.impostorId = some w then "crew" else "impostor") ∧
      res.reason = (if sampleVotingRoom.impostorId = some w then "impostor_eliminated" else "crew_eliminated") :=
  (finalize_voting_spec sampleVotingRoom "R" sampleVotingState 5 rfl rfl
    (by decide) (by decide)).1 (by decide)

/-! ### cast_vote (C4) -/

/-- C4: `cast_vote` on an existing room fails with Conflict unless the
phase is voting; past the deadline it first finalizes and then fails with
Conflict; a voter outside the frozen snapshot gets Forbidden, a target
that is neither `"skip"` nor in the snapshot gets Conflict, a repeated
vote gets Conflict; otherwise exactly one vote is appended, `vote_cast`
is broadcast with the updated votes and tally, and the vote is finalized
when every voter has voted. -/
theorem cast_vote_spec (r : RoomState) (nm : String) (st : TurnState)
    (now d : Int) (voter target : String)
    (hname : r.name = some nm) (hst : r.turnState = some st) :
    (st.phase ≠ "voting" →
      castVote r now voter target = (r, [], .error (.conflict "voting is not active"))) ∧
    (st.phase = "voting" → st.voteDeadlineTs = some d → d ≤ now →
      ∀ r1 ev, finalizeVotingLocked r st now = .ok (r1, ev) →
        castVote r now voter target = (r1, ev, .error (.conflict "voting has ended"))) ∧
    (st.phase = "voting" → (∀ e, st.voteDeadlineTs = some e → now < e) →
      voter ∉ parseVoters st →
      castVote r now voter target = (r, [], .error (.forbidden "voter is not eligible"))) ∧
    (st.phase = "voting" → (∀ e, st.voteDeadlineTs = some e → now < e) →
      voter ∈ parseVoters st → target ≠ "skip" → target ∉ parseVoters st →
      castVote r now voter target = (r, [], .error (.conflict "invalid vote target"))) ∧
    (st.phase = "voting" → (∀ e, st.voteDeadlineTs = some e → now < e) →
      voter ∈ parseVoters st → (target = "skip" ∨ target ∈ parseVoters st) →
      r.votes.any (fun p => p.1 = voter) = true →
      castVote r now voter target = (r, [], .error (.conflict "vote already cast"))) ∧
    (st.phase = "voting" → (∀ e, st.voteDeadlineTs = some e → now < e) →
      voter ∈ parseVoters st → (target = "skip" ∨ target ∈ parseVoters st) →
      r.votes.any (fun p => p.1 = voter) = false →
      setVote r.votes voter target = r.votes ++ [(voter, target)] ∧
      (¬(0 < (parseVoters st).length ∧ (parseVoters st).length ≤ (r.votes ++ [(voter, target)]).length) →
        castVote r now voter target = ({ r with votes := r.votes ++ [(voter, target)] }, [.voteCast st.round voter target (r.votes ++ [(voter, target)]) (tallyVotes (r.votes ++ [(voter, target)]) (parseVoters st))], .ok (r.votes ++ [(voter, target)], tallyVotes (r.votes ++ [(voter, target)]) (parseVoters st)))) ∧
      (∀ r2 ev, 0 < (parseVoters st).length →
        (parseVoters st).length ≤ (r.votes ++ [(voter, target)]).length →
        finalizeVotingLocked { r with votes := r.votes ++ [(voter, target)] } st now = .ok (r2, ev) →
        castVote r now voter target = (r2, .voteCast st.round voter target (r.votes ++ [(voter, target)]) (tallyVotes (r.votes ++ [(voter, target)]) (parseVoters st)) :: ev, .ok (r.votes ++ [(voter, target)], tallyVotes (r.votes ++ [(voter, target)]) (parseVoters st))))) ∧
    ((parseVoters st).Nodup → parseVoters st ≠ [] →
      (∀ v ∈ parseVoters st, v ∈ (r.votes ++ [(voter, target)]).map Prod.fst) →
      0 < (parseVoters st).length ∧
        (parseVoters st).length ≤ (r.votes ++ [(voter, target)]).length) := by
  refine ⟨?_, ?_, ?_, ?_, ?_, ?_, ?_⟩
  · intro hph
    have hgts : getTurnStateForPhase r "voting" = none := by
      simp [getTurnStateForPhase, hst, hph]
    simp [castVote, hname, hgts]
  · intro hph hdts hd r1 ev hfin
    have hgts : getTurnStateForPhase r "voting" = some st := by
      simp [getTurnStateForPhase, hst, hph]
    have hpast : (match st.voteDeadlineTs with
        | some e => decide (e ≤ now) | none => false) = true := by
      rw [hdts]
      simpa using hd
    simp [castVote, hname, hgts, hpast, hfin]
  · intro hph hdl hv
    have hgts : getTurnStateForPhase r "voting" = some st := by
      simp [getTurnStateForPhase, hst, hph]
    have hpast : (match st.voteDeadlineTs with
        | some e => decide (e ≤ now) | none => false) = false := by
      rcases hdts : st.voteDeadlineTs with _ | e
      · rfl
      · have hlt := hdl e hdts
        simp
        omega
    simp [castVote, hname, hgts, hpast, hv]
  · intro hph hdl hvV hts htV
    have hgts : getTurnStateForPhase r "voting" = some st := by
      simp [getTurnStateForPhase, hst, hph]
    have hpast : (match st.voteDeadlineTs with
        | some e => decide (e ≤ now) | none => false) = false := by
      rcases hdts : st.voteDeadlineTs with _ | e
      · rfl
      · have hlt := hdl e hdts
        simp
        omega
    simp [castVote, hname, hgts, hpast, hvV, hts, htV]
  · intro hph hdl hvV hok hany
    have hgts : getTurnStateForPhase r "voting" = some st := by
      simp [getTurnStateForPhase, hst, hph]
    have hpast : (match st.voteDeadlineTs with
        | some e => decide (e ≤ now) | none => false) = false := by
      rcases hdts : st.voteDeadlineTs with _ | e
      · rfl
      · have hlt := hdl e hdts
        simp
        omega
    have hokc : ¬(target ≠ "skip" ∧ target ∉ parseVoters st) := by
      rcases hok with h | h
      · exact fun hc => hc.1 h
      · exact fun hc => hc.2 h
    simp [castVote, hname, hgts, hpast, hvV, hokc, hany]
  · intro hph hdl hvV hok hany
    have hgts : getTurnStateForPhase r "voting" = some st := by
      simp [getTurnStateForPhase, hst, hph]
    have hpast : (match st.voteDeadlineTs with
        | some e => decide (e ≤ now) | none => false) = false := by
      rcases hdts : st.voteDeadlineTs with _ | e
      · rfl
      · have hlt := hdl e hdts
        simp
        omega
    have hokc : ¬(target ≠ "skip" ∧ target ∉ parseVoters st) := by
      rcases hok with h | h
      · exact fun hc => hc.1 h
      · exact fun hc => hc.2 h
    have hsv : setVote r.votes voter target = r.votes ++ [(voter, target)] := by
      unfold setVote
      rw [if_neg (by simp [hany])]
    refine ⟨hsv, ?_, ?_⟩
    · intro hcond
      simp [castVote, hname, hgts, hpast, hvV, hokc, hany, hsv]
      intro h1 h2
      exact absurd ⟨h1, by simpa using h2⟩ hcond
    · intro r2 ev h1 h2 hfin
      have h2s : (parseVoters st).length ≤ r.votes.length + 1 := by simpa using h2
      rw [hname] at hfin
      simp [castVote, hname, hgts, hpast, hvV, hokc, hany, hsv, h1, h2s, hfin]
  · intro hnodup hne hall
    constructor
    · exact List.length_pos.mpr hne
    · have hsub : (parseVoters st).toFinset ⊆ ((r.votes ++ [(voter, target)]).map Prod.fst).toFinset := by
        intro v hv
        rw [List.mem_toFinset] at hv ⊢
        exact hall v hv
      calc (parseVoters st).length
          = (parseVoters st).toFinset.card := (List.toFinset_card_of_nodup hnodup).symm
        _ ≤ ((r.votes ++ [(voter, target)]).map Prod.fst).toFinset.card := Finset.card_le_card hsub
        _ ≤ ((r.votes ++ [(voter, target)]).map Prod.fst).length := List.toFinset_card_le _
        _ = (r.votes ++ [(voter, target)]).length := List.length_map _ _

/-- Witness for `cast_vote_spec`: a voter outside the frozen snapshot is
rejected with Forbidden. -/
theorem cast_vote_spec_witness :
    castVote sampleVotingRoom 5 "Z" "A"
      = (sampleVotingRoom, [], .error (.forbidden "voter is not eligible")) := by
  have h := (cast_vote_spec sampleVotingRoom "R" sampleVotingState 5 100 "Z" "A"
    rfl rfl).2.2.1 rfl ?_ (by decide)
  · exact h
  · intro e he
    rw [show sampleVotingState.voteDeadlineTs = some 100 from rfl] at he
    cases he
    decide

/-! ### Turn-state invariant preservation (C2) -/

theorem turnInvariant_advance (r : RoomState) (st : TurnState) (now : Int)
    (reason : TurnEndReason) (hinv : TurnInvariant r) (_hst : r.turnState = some st) :
    TurnInvariant (advanceTurnLocked r st now reason).1 := by
  by_cases hlen : r.turnOrder.length ≤ st.turnIndex + 1
  · have heq : (advanceTurnLocked r st now reason).1 = (startVoting r st now).1 := by
      simp [advanceTurnLocked, hlen]
    rw [heq]
    rcases hvs : sortStrings r.conns with _ | ⟨v, vs⟩
    · have heq2 : (startVoting r st now).1 = r := by
        simp [startVoting, hvs]
      rw [heq2]
      exact hinv
    · have heq2 : (startVoting r st now).1 = { r with turnState := some { st with phase := "voting", voteDeadlineTs := some (now + st.voteDuration.getD 60), voters := some (v :: vs), deadlineTs := none, turnRemaining := none, graceDeadlineTs := none }, votes := [] } := by
        simp [startVoting, hvs]
      rw [heq2]
      intro st' hst' hph'
      cases hst'
      simp at hph'
  · have hlt : st.turnIndex + 1 < r.turnOrder.length := by omega
    have heq : (advanceTurnLocked r st now reason).1 = { r with turnState := some { st with phase := "active", turnIndex := st.turnIndex + 1, currentConnId := r.turnOrder.get ⟨st.turnIndex + 1, hlt⟩, deadlineTs := some (now + st.turnDuration.getD 30), turnRemaining := none, graceDeadlineTs := none } } := by
      simp [advanceTurnLocked, hlen]
    rw [heq]
    intro st' hst' _
    cases hst'
    exact ⟨hlt, rfl⟩

/-- C2: the turn-state invariant (`current_conn_id = TurnOrder[turn_index]`
and `turn_index < len(TurnOrder)` while the phase is active or paused) is
preserved by every operation that writes turn state: round start, turn
advance, pause on disconnect and resume on reconnect. -/
theorem turn_invariant_preserved (r r' : RoomState) (hinv : TurnInvariant r)
    (hstep : TurnWrite r r') : TurnInvariant r' := by
  cases hstep with
  | roundsStart _ order td tg vd now ev h =>
      rcases horder : order with _ | ⟨c, rest⟩
      · subst horder
        simp [startRounds] at h
      · subst horder
        simp only [startRounds, startRound, List.isEmpty_cons, Bool.false_eq_true,
          if_false, Option.some.injEq, Prod.mk.injEq] at h
        obtain ⟨h1, -⟩ := h
        subst h1
        intro st' hst' _
        cases hst'
        exact ⟨by simp, rfl⟩
  | nextRound st now hst =>
      rcases horder : r.turnOrder with _ | ⟨c, rest⟩
      · have heq : (startNextRound r st now).1 = r := by
          simp [startNextRound, horder]
        rw [heq]
        exact hinv
      · have heq : (startNextRound r st now).1 = { r with votes := [], turnWords := [], turnState := some { phase := "active", round := st.round + 1, turnIndex := 0, currentConnId := c, deadlineTs := some (now + st.turnDuration.getD 30), turnDuration := some (st.turnDuration.getD 30), turnGrace := some (st.turnGrace.getD 60), voteDuration := some (st.voteDuration.getD 60) } } := by
          simp [startNextRound, startRound, horder]
        rw [heq]
        intro st' hst' _
        cases hst'
        refine ⟨?_, ?_⟩
        · show 0 < r.turnOrder.length
          rw [horder]
          simp
        · simp [horder]
  | advance st now reason hst hph =>
      exact turnInvariant_advance r st now reason hinv hst
  | pauseStep _ connId now ev h =>
      rcases hts : r.turnState with _ | stA
      · simp only [pauseTurnIfCurrent, getTurnStateForPhase, hts,
          Option.some.injEq, Prod.mk.injEq] at h
        obtain ⟨h1, -⟩ := h
        subst h1
        exact hinv
      · by_cases hph : stA.phase = "active"
        swap
        · simp [pauseTurnIfCurrent, getTurnStateForPhase, hts, hph] at h
          obtain ⟨h1, -⟩ := h
          subst h1
          exact hinv
        by_cases hcur : stA.currentConnId = connId
        swap
        · simp [pauseTurnIfCurrent, getTurnStateForPhase, hts, hph, hcur] at h
          obtain ⟨h1, -⟩ := h
          subst h1
          exact hinv
        rcases hdl : stA.deadlineTs with _ | e
        · simp [pauseTurnIfCurrent, getTurnStateForPhase, hts, hph, hcur, hdl] at h
        · simp [pauseTurnIfCurrent, getTurnStateForPhase, hts, hph, hcur, hdl] at h
          obtain ⟨h1, -⟩ := h
          subst h1
          intro st' hst' _
          cases hst'
          obtain ⟨hlt, hget⟩ := hinv stA hts (Or.inl hph)
          exact ⟨hlt, hget.trans hcur⟩
  | resumeStep connId now =>
      rcases hts : r.turnState with _ | stP
      · have heq : (resumeTurnIfCurrent r connId now).1 = r := by
          simp [resumeTurnIfCurrent, getTurnStateForPhase, hts]
        rw [heq]
        exact hinv
      · by_cases hph : stP.phase = "paused"
        swap
        · have heq : (resumeTurnIfCurrent r connId now).1 = r := by
            simp [resumeTurnIfCurrent, getTurnStateForPhase, hts, hph]
          rw [heq]
          exact hinv
        by_cases hcur : stP.currentConnId = connId
        swap
        · have heq : (resumeTurnIfCurrent r connId now).1 = r := by
            simp [resumeTurnIfCurrent, getTurnStateForPhase, hts, hph, hcur]
          rw [heq]
          exact hinv
        by_cases hrem : stP.turnRemaining.getD 0 ≤ 0
        · have heq : (resumeTurnIfCurrent r connId now).1 = (advanceTurnLocked r stP now .skipped).1 := by
            simp [resumeTurnIfCurrent, getTurnStateForPhase, hts, hph, hcur, hrem]
          rw [heq]
          exact turnInvariant_advance r stP now .skipped hinv hts
        · have heq : (resumeTurnIfCurrent r connId now).1 = { r with turnState := some { stP with phase := "active", deadlineTs := some (now + stP.turnRemaining.getD 0), graceDeadlineTs := none, turnRemaining := none } } := by
            simp [resumeTurnIfCurrent, getTurnStateForPhase, hts, hph, hcur, hrem]
          rw [heq]
          intro st' hst' _
          cases hst'
          exact hinv stP hts (Or.inr hph)

/-- Witness for `turn_invariant_preserved`: starting the rounds of a fresh
two-player room yields a state satisfying the invariant. -/
theorem turn_invariant_preserved_witness :
    TurnInvariant { name := some "w", turnOrder := ["a", "b"], turnWords := [], turnState := some { phase := "active", round := 1, turnIndex := 0, currentConnId := "a", deadlineTs := some 30, turnDuration := some 30, turnGrace := some 60, voteDuration := some 60 } } := by
  have hinv0 : TurnInvariant ({ name := some "w" } : RoomState) := by
    intro st hst _
    exact Option.noConfusion hst
  exact turn_invariant_preserved { name := some "w" } _ hinv0
    (TurnWrite.roundsStart _ _ ["a", "b"] 30 60 60 0 _ rfl)

end ImpostorGame
